import Mathlib

/-!
Verification of the Open Alpha factor-analysis platform.

The repository ships the React frontend (`frontend/src/services/api.js`,
`frontend/src/pages/FactorLab.jsx`, `frontend/src/pages/DataExplorer.jsx`,
`FactorStrategy`, `BacktestReport`) together with the natural-language
specification of the FastAPI backend (factor expression engine, backtest
engine, statistics engine, multi-factor combiner).  The backend source is
not part of the repository snapshot, so the backend components are modelled
from the specification; the frontend components are embedded directly from
the JavaScript source.

Numbers are modelled as rationals.  "Undefined" (NaN) series entries are
modelled as `none : Option ℚ`.  The real-valued primitives that have no
exact rational counterpart (natural log, square root, real power) are
abstracted as a `RealFns` record of rational stand-ins; every theorem is
uniform in that record, and definedness conditions (the part the spec pins
down) are handled outside of it.
-/

namespace OpenAlpha

/-! ## JSON values (frontend API payloads) -/

/-- A JSON value, as produced/consumed by the axios-based frontend API layer. -/
inductive JVal where
  | null : JVal
  | bool (b : Bool) : JVal
  | num (q : ℚ) : JVal
  | str (s : String) : JVal
  | arr (xs : List JVal) : JVal
  | obj (fields : List (String × JVal)) : JVal

/-- First-match association lookup on a JSON object's field list
(JavaScript object property access). -/
def lookupField (k : String) : List (String × JVal) → Option JVal
  | [] => none
  | (k', v) :: rest => if k' = k then some v else lookupField k rest

/-- JavaScript truthiness of a JSON value (`NaN` is not representable in ℚ;
every other JS falsiness case is covered). -/
def jsTruthy : JVal → Bool
  | .null => false
  | .bool b => b
  | .num q => decide (q ≠ 0)
  | .str s => decide (s ≠ "")
  | .arr _ => true
  | .obj _ => true

/-- `reportsApi.list` from `frontend/src/services/api.js`:
`return response.data.reports || [];` applied to the parsed response body. -/
def reportsList (body : List (String × JVal)) : JVal :=
  match lookupField "reports" body with
  | some v => if jsTruthy v then v else .arr []
  | none => .arr []

/-- `factorApi.combine` from `frontend/src/services/api.js`: the literal body
of the POST `/combine` request, `{ factors, symbol, periods, quantile }`,
with `factors` passed through verbatim from the caller. -/
def combineRequestBody (factors : JVal) (symbol : String) (periods quantile : ℚ) :
    List (String × JVal) :=
  [("factors", factors), ("symbol", .str symbol),
   ("periods", .num periods), ("quantile", .num quantile)]

/-- One entry of the `selectedFactors` state of the `FactorStrategy` page:
`{id, expression, weight}`, the weight still being the raw text of the
number input. -/
structure SelectedFactor where
  id : ℚ
  expression : String
  weight : String

/-- `FactorStrategy.runStrategy` from `frontend/src/pages/DataExplorer.jsx`
(the `FactorStrategy` page): the body of the POST `/combine` request,
`{ symbol, factors: selectedFactors.map(f => ({expression, weight: parseFloat(f.weight)})) }`.
`pf` models JavaScript's `parseFloat` returning a number. -/
def runStrategyPayload (pf : String → ℚ) (symbol : String)
    (selectedFactors : List SelectedFactor) : List (String × JVal) :=
  [("symbol", .str symbol),
   ("factors", JVal.arr (selectedFactors.map (fun f =>
      JVal.obj [("expression", .str f.expression), ("weight", .num (pf f.weight))])))]

/-! ## Data Explorer chart data (C10) -/

/-- A raw OHLCV bar as returned by the server; any field may be `null`. -/
structure RawBar where
  time : Option ℚ
  open_ : Option ℚ
  high : Option ℚ
  low : Option ℚ
  close : Option ℚ
  volume : Option ℚ

/-- A candle handed to the chart: all five fields numeric, `time` floored. -/
structure ChartCandle where
  time : ℤ
  open_ : ℚ
  high : ℚ
  low : ℚ
  close : ℚ
deriving DecidableEq

/-- The `.map` step of `initChart`: `{time: Math.floor(Number(d.time)),
open: Number(d.open), ...}` (the bar is known non-null after the filter). -/
def toCandle (d : RawBar) : ChartCandle :=
  { time := ⌊d.time.getD 0⌋
    open_ := d.open_.getD 0
    high := d.high.getD 0
    low := d.low.getD 0
    close := d.close.getD 0 }

/-- The filter predicate of `initChart`:
`d.time != null && d.open != null && d.high != null && d.low != null && d.close != null`. -/
def barComplete (d : RawBar) : Bool :=
  d.time.isSome && d.open_.isSome && d.high.isSome && d.low.isSome && d.close.isSome

instance : DecidableRel (fun a b : ChartCandle => a.time ≤ b.time) :=
  fun a b => inferInstanceAs (Decidable (a.time ≤ b.time))

instance : IsTotal ChartCandle (fun a b : ChartCandle => a.time ≤ b.time) :=
  ⟨fun a b => le_total a.time b.time⟩

instance : IsTrans ChartCandle (fun a b : ChartCandle => a.time ≤ b.time) :=
  ⟨fun _ _ _ hab hbc => le_trans hab hbc⟩

/-- `formattedData` from `initChart` in `frontend/src/pages/DataExplorer.jsx`:
filter out bars with a null field, convert to numbers, sort ascending by time
(`.sort((a, b) => a.time - b.time)`). -/
def formattedData (chartData : List RawBar) : List ChartCandle :=
  List.insertionSort (fun a b => a.time ≤ b.time)
    ((chartData.filter barComplete).map toCandle)

/-! ## Validity battery (C1) — modelled from the spec -/

/-- The scalar statistics the validity battery inspects. -/
structure ValidityStats where
  t_stat : ℚ
  ic_mean : ℚ
  sharpe : ℚ
  win_rate : ℚ
  n_obs : ℕ

/-- Modelled from the spec: `ic_significance`: `|t-stat| > 1.96`. -/
def ic_significance (s : ValidityStats) : Bool := decide (|s.t_stat| > 196 / 100)

/-- Modelled from the spec: `ic_meaningful`: `|ic_mean| > 0.01`. -/
def ic_meaningful (s : ValidityStats) : Bool := decide (|s.ic_mean| > 1 / 100)

/-- Modelled from the spec: `positive_sharpe`: long-short Sharpe > 0. -/
def positive_sharpe (s : ValidityStats) : Bool := decide (s.sharpe > 0)

/-- Modelled from the spec: `above_random`: win rate > 0.48. -/
def above_random (s : ValidityStats) : Bool := decide (s.win_rate > 48 / 100)

/-- Modelled from the spec: `sufficient_data`: valid observation count > 100. -/
def sufficient_data (s : ValidityStats) : Bool := decide (s.n_obs > 100)

/-- Modelled from the spec: the named validity checks, in battery order. -/
def validity_checks (s : ValidityStats) : List (String × Bool) :=
  [("ic_significance", ic_significance s),
   ("ic_meaningful", ic_meaningful s),
   ("positive_sharpe", positive_sharpe s),
   ("above_random", above_random s),
   ("sufficient_data", sufficient_data s)]

/-- Modelled from the spec: `is_valid_factor` = all checks pass. -/
def is_valid_factor (s : ValidityStats) : Bool :=
  (validity_checks s).all (fun p => p.2)

/-- Modelled from the spec: `validity_reason` names the failing checks
(the backend renders this list as a string; a fixed pass message is used
when every check passes). -/
def validity_reason (s : ValidityStats) : List String :=
  ((validity_checks s).filter (fun p => !p.2)).map Prod.fst

/-! ## Series, panel and the time-series function library
Modelled from the spec: the backend factor engine (§4.2/§4.3) is not part
of the repository snapshot; its function library and evaluator are modelled
from the specification's table and evaluation rules. -/

/-- A factor/price series aligned 1:1 with the panel; `none` is "undefined". -/
abbrev Series := List (Option ℚ)

/-- One OHLCV bar of the price panel. -/
structure Bar where
  open_ : ℚ
  high : ℚ
  low : ℚ
  close : ℚ
  volume : ℚ
deriving DecidableEq

/-- The price panel: an ordered sequence of bars. -/
abbrev Panel := List Bar

/-- The five legal field names. -/
inductive FieldName where
  | open_ | high | low | close | volume
deriving DecidableEq

/-- Column read of a field from the panel. -/
def fieldVal : FieldName → Bar → ℚ
  | .open_ => Bar.open_
  | .high => Bar.high
  | .low => Bar.low
  | .close => Bar.close
  | .volume => Bar.volume

/-- A field reference evaluates to the fully-defined column series. -/
def fieldSeries (f : FieldName) (p : Panel) : Series :=
  p.map (fun b => some (fieldVal f b))

/-- Rational stand-ins for the real-valued primitives (natural log, square
root, real power) that have no exact rational counterpart.  Every theorem
is uniform in this record; the definedness conditions the spec pins down
are handled outside of it. -/
structure RealFns where
  rlog : ℚ → ℚ
  rsqrt : ℚ → ℚ
  rpow : ℚ → ℚ → Option ℚ

/-- A concrete instantiation of `RealFns` used for closed-term witnesses. -/
def rfTriv : RealFns :=
  { rlog := fun q => q, rsqrt := fun q => q, rpow := fun a _ => some a }

/-- Arithmetic mean of a list (0 for the empty list). -/
def listMean (l : List ℚ) : ℚ := if l.length = 0 then 0 else l.sum / l.length

/-- Sample variance of a list (0 when fewer than two entries). -/
def svar (l : List ℚ) : ℚ :=
  if l.length ≤ 1 then 0
  else (l.map (fun x => (x - listMean l) ^ 2)).sum / ((l.length : ℚ) - 1)

/-- Sample covariance of two aligned lists (0 when fewer than two entries). -/
def scov (x y : List ℚ) : ℚ :=
  if x.length ≤ 1 then 0
  else ((x.zip y).map (fun p => (p.1 - listMean x) * (p.2 - listMean y))).sum /
    ((x.length : ℚ) - 1)

/-- The defined entries of a series, in order. -/
def definedVals (s : Series) : List ℚ := s.filterMap id

/-- Unary undefined propagation: apply `f` to a defined operand, undefined
otherwise. -/
def cellU (f : ℚ → Option ℚ) : Option ℚ → Option ℚ := fun a => a.bind f

/-- Binary undefined propagation: apply `f` when both operands are defined,
undefined otherwise. -/
def cellB (f : ℚ → ℚ → Option ℚ) : Option ℚ → Option ℚ → Option ℚ
  | some x, some y => f x y
  | _, _ => none

/-- Elementwise unary lift over a series. -/
def liftU (f : ℚ → Option ℚ) (s : Series) : Series := s.map (cellU f)

/-- Elementwise binary lift over two aligned series. -/
def liftB (f : ℚ → ℚ → Option ℚ) (x y : Series) : Series :=
  List.zipWith (cellB f) x y

/-- Division: undefined on a zero divisor (never an exception). -/
def divQ (a b : ℚ) : Option ℚ := if b = 0 then none else some (a / b)

/-- Natural log: undefined on non-positive input (never an exception). -/
def logQ (rf : RealFns) (x : ℚ) : Option ℚ :=
  if x ≤ 0 then none else some (rf.rlog x)

/-- Square root: undefined on non-positive input (never an exception). -/
def sqrtQ (rf : RealFns) (x : ℚ) : Option ℚ :=
  if x ≤ 0 then none else some (rf.rsqrt x)

/-- Elementwise absolute value. -/
def absQ (x : ℚ) : Option ℚ := some |x|

/-- Elementwise sign function. -/
def signQ (x : ℚ) : Option ℚ :=
  some (if 0 < x then 1 else if x < 0 then -1 else 0)

/-- The trailing `n`-window of `s` ending at position `i`: `none` during the
warm-up (fewer than `n` trailing entries) or when any entry of the window is
undefined, otherwise the `n` defined values. -/
def trailingWindow (s : Series) (n i : ℕ) : Option (List ℚ) :=
  if i + 1 < n then none
  else if ((s.drop (i + 1 - n)).take n).all Option.isSome
    then some (((s.drop (i + 1 - n)).take n).filterMap id)
    else none

/-- Generic rolling application: the output is aligned 1:1 with `s`. -/
def rollingApply (g : List ℚ → Option ℚ) (s : Series) (n : ℕ) : Series :=
  (List.range s.length).map (fun i => (trailingWindow s n i).bind g)

/-- `ts_delay(x, n)`: value of `x` shifted back `n` positions; first `n`
entries undefined. -/
def ts_delay (s : Series) (n : ℕ) : Series :=
  (List.range s.length).map (fun i => if i < n then none else s.getD (i - n) none)

/-- `ts_mean(x, n)`: simple moving average over the trailing `n` entries. -/
def ts_mean (s : Series) (n : ℕ) : Series :=
  rollingApply (fun w => some (listMean w)) s n

/-- `ts_std(x, n)`: rolling sample standard deviation. -/
def ts_std (rf : RealFns) (s : Series) (n : ℕ) : Series :=
  rollingApply (fun w => some (rf.rsqrt (svar w))) s n

/-- `ts_max(x, n)`: rolling maximum over the trailing `n` entries. -/
def ts_max (s : Series) (n : ℕ) : Series :=
  rollingApply (fun w => w.foldl max <$> w.head?) s n

/-- `ts_min(x, n)`: rolling minimum over the trailing `n` entries. -/
def ts_min (s : Series) (n : ℕ) : Series :=
  rollingApply (fun w => w.foldl min <$> w.head?) s n

/-- `ts_rank(x, n)`: percentile rank (0–1) of the current value within the
trailing window, ties resolved by average rank. -/
def ts_rank (s : Series) (n : ℕ) : Series :=
  rollingApply (fun w =>
    (w.getLast?).map (fun cur =>
      ((w.countP (fun v => decide (v < cur)) : ℚ) +
        ((w.countP (fun v => decide (v = cur)) : ℚ) + 1) / 2) / (w.length : ℚ))) s n

/-- `ts_zscore(x, n) = (x - ts_mean(x, n)) / ts_std(x, n)`. -/
def ts_zscore (rf : RealFns) (s : Series) (n : ℕ) : Series :=
  liftB divQ (liftB (fun a b => some (a - b)) s (ts_mean s n)) (ts_std rf s n)

/-- `ts_returns(x, n) = x / ts_delay(x, n) - 1`. -/
def ts_returns (s : Series) (n : ℕ) : Series :=
  liftB (fun a b => if b = 0 then none else some (a / b - 1)) s (ts_delay s n)

/-- `ts_corr(x, y, n)`: rolling Pearson correlation; undefined when either
window variance vanishes (division by zero is undefined, not an error). -/
def ts_corr (rf : RealFns) (x y : Series) (n : ℕ) : Series :=
  (List.range (min x.length y.length)).map (fun i =>
    match trailingWindow x n i, trailingWindow y n i with
    | some wx, some wy =>
        if svar wx = 0 ∨ svar wy = 0 then none
        else divQ (scov wx wy) (rf.rsqrt (svar wx * svar wy))
    | _, _ => none)

/-- `ts_cov(x, y, n)`: rolling sample covariance. -/
def ts_cov (x y : Series) (n : ℕ) : Series :=
  (List.range (min x.length y.length)).map (fun i =>
    match trailingWindow x n i, trailingWindow y n i with
    | some wx, some wy => some (scov wx wy)
    | _, _ => none)

/-- `standardize(x) = (x - mean(x)) / std(x)` over the full series, ignoring
undefined entries; undefined where `x` is undefined or the variance is 0. -/
def standardize (rf : RealFns) (s : Series) : Series :=
  s.map (cellU (fun v =>
    if svar (definedVals s) = 0 then none
    else some ((v - listMean (definedVals s)) / rf.rsqrt (svar (definedVals s)))))

/-- `normalize(x) = (x - min(x)) / (max(x) - min(x))` over the full series;
undefined where `x` is undefined or the range is 0. -/
def normalize (s : Series) : Series :=
  s.map (cellU (fun v =>
    divQ (v - (definedVals s).foldl min ((definedVals s).headD 0))
      ((definedVals s).foldl max ((definedVals s).headD 0) -
        (definedVals s).foldl min ((definedVals s).headD 0))))

/-- Nearest-rank percentile of a list of values. -/
def percentileNR (l : List ℚ) (p : ℕ) : ℚ :=
  (List.insertionSort (fun a b : ℚ => a ≤ b) l).getD
    (min (l.length - 1) (p * l.length / 100)) 0

/-- `winsorize(x)`: clip `x` to its own [1st, 99th] percentile, computed over
the full series. -/
def winsorize (s : Series) : Series :=
  s.map (cellU (fun v =>
    some (max (percentileNR (definedVals s) 1)
      (min (percentileNR (definedVals s) 99) v))))

/-! ## The expression AST and evaluator (modelled from the spec) -/

/-- Binary operators of the expression grammar. -/
inductive BinOp where
  | add | sub | mul | div | pow
deriving DecidableEq

/-- Unary (elementwise or full-series) built-ins. -/
inductive Fn1 where
  | log | sqrt | abs | sign | winsorize | standardize | normalize
deriving DecidableEq

/-- Single-series built-ins taking a window parameter. -/
inductive FnW where
  | ts_delay | ts_mean | ts_std | ts_max | ts_min | ts_rank | ts_zscore | ts_returns
deriving DecidableEq

/-- Two-series built-ins taking a window parameter. -/
inductive FnW2 where
  | ts_corr | ts_cov
deriving DecidableEq

/-- The expression AST.  Arity is enforced by construction, matching the
spec's invariant that arity and identifier legality are validated at parse
time; window parameters are positive integer literals checked by the
evaluator. -/
inductive Expr where
  | lit (q : ℚ)
  | fieldRef (f : FieldName)
  | neg (e : Expr)
  | bin (op : BinOp) (l r : Expr)
  | call1 (f : Fn1) (e : Expr)
  | callW (f : FnW) (e : Expr) (n : ℕ)
  | callW2 (f : FnW2) (a b : Expr) (n : ℕ)

/-- Dispatch of a binary operator to its cell function. -/
def applyBin (rf : RealFns) : BinOp → ℚ → ℚ → Option ℚ
  | .add => fun a b => some (a + b)
  | .sub => fun a b => some (a - b)
  | .mul => fun a b => some (a * b)
  | .div => divQ
  | .pow => rf.rpow

/-- Dispatch of a unary built-in. -/
def applyFn1 (rf : RealFns) : Fn1 → Series → Series
  | .log => liftU (logQ rf)
  | .sqrt => liftU (sqrtQ rf)
  | .abs => liftU absQ
  | .sign => liftU signQ
  | .winsorize => winsorize
  | .standardize => standardize rf
  | .normalize => normalize

/-- Dispatch of a windowed single-series built-in. -/
def applyFnW (rf : RealFns) : FnW → Series → ℕ → Series
  | .ts_delay => ts_delay
  | .ts_mean => ts_mean
  | .ts_std => ts_std rf
  | .ts_max => ts_max
  | .ts_min => ts_min
  | .ts_rank => ts_rank
  | .ts_zscore => ts_zscore rf
  | .ts_returns => ts_returns

/-- Dispatch of a windowed two-series built-in. -/
def applyFnW2 (rf : RealFns) : FnW2 → Series → Series → ℕ → Series
  | .ts_corr => ts_corr rf
  | .ts_cov => ts_cov

/-- The expression evaluator, modelled from the spec (§4.3): bottom-up
evaluation; undefined values propagate through values, never as errors;
a non-positive window length or one exceeding the panel length is an
evaluation error. -/
def evalExpr (rf : RealFns) (p : Panel) : Expr → Except String Series
  | .lit q => .ok (p.map (fun _ => some q))
  | .fieldRef f => .ok (fieldSeries f p)
  | .neg e => do
      let s ← evalExpr rf p e
      .ok (liftU (fun x => some (-x)) s)
  | .bin op l r => do
      let a ← evalExpr rf p l
      let b ← evalExpr rf p r
      .ok (liftB (applyBin rf op) a b)
  | .call1 f e => do
      let s ← evalExpr rf p e
      .ok (applyFn1 rf f s)
  | .callW f e n => do
      let s ← evalExpr rf p e
      if n < 1 then .error "window length must be a positive integer"
      else if p.length < n then .error "window length exceeds panel length"
      else .ok (applyFnW rf f s n)
  | .callW2 f a b n => do
      let x ← evalExpr rf p a
      let y ← evalExpr rf p b
      if n < 1 then .error "window length must be a positive integer"
      else if p.length < n then .error "window length exceeds panel length"
      else .ok (applyFnW2 rf f x y n)

/-- The structural validity of an expression's window parameters against a
panel length: exactly the conditions under which `evalExpr` succeeds. -/
def windowsOk (len : ℕ) : Expr → Bool
  | .lit _ => true
  | .fieldRef _ => true
  | .neg e => windowsOk len e
  | .bin _ l r => windowsOk len l && windowsOk len r
  | .call1 _ e => windowsOk len e
  | .callW _ e n => windowsOk len e && decide (1 ≤ n) && decide (n ≤ len)
  | .callW2 _ a b n =>
      windowsOk len a && windowsOk len b && decide (1 ≤ n) && decide (n ≤ len)

/-! ## Backtest engine (modelled from the spec, §4.4) -/

/-- The `periods`-ahead simple return of `close`, aligned to the factor
series; the last `periods` entries are undefined, and a zero price makes the
return undefined rather than an error. -/
def forwardReturns (p : Panel) (periods : ℕ) : Series :=
  (List.range p.length).map (fun i =>
    if i + periods < p.length then
      let c0 := (p.getD i ⟨0, 0, 0, 0, 0⟩).close
      if c0 = 0 then none
      else some ((p.getD (i + periods) ⟨0, 0, 0, 0, 0⟩).close / c0 - 1)
    else none)

/-- Step 2 of the backtest: the positions at which both the factor series
and the forward-return series are defined, in original order. -/
def validIdx (f r : Series) : List ℕ :=
  (List.range (min f.length r.length)).filter
    (fun i => (f.getD i none).isSome && (r.getD i none).isSome)

/-- The factor value at a position (0 where undefined; only applied to valid
positions). -/
def factorValAt (f : Series) (i : ℕ) : ℚ := (f.getD i none).getD 0

instance (f : Series) :
    DecidableRel (fun a b : ℕ => factorValAt f a ≤ factorValAt f b) :=
  fun _ _ => inferInstanceAs (Decidable (_ ≤ _))

/-- Step 3 of the backtest: valid positions ordered by factor value
(equal-frequency cut points over the rank order; ties broken by the stable
original order of the sort). -/
def sortedValid (f r : Series) : List ℕ :=
  List.insertionSort (fun a b => factorValAt f a ≤ factorValAt f b) (validIdx f r)

/-- The bucket of the rank-`k` observation among `n` observations split into
`q` equal-frequency buckets. -/
def bucketOf (n q k : ℕ) : ℕ := k * q / n

/-- The members (original positions) of quantile layer `j`. -/
def layerMembers (f r : Series) (q j : ℕ) : List ℕ :=
  ((sortedValid f r).enum.filter
    (fun kv => decide (bucketOf (sortedValid f r).length q kv.1 = j))).map Prod.snd

/-- The member count of quantile layer `j`. -/
def layerCount (f r : Series) (q j : ℕ) : ℕ := (layerMembers f r q j).length

/-- Step 4 of the backtest: long-short portfolio return from the forward
returns of the top and bottom buckets. -/
def longShortReturn (topFR botFR : List ℚ) : ℚ := listMean topFR - listMean botFR

/-- The per-timestamp long-short return series, from the per-timestamp top-
and bottom-bucket forward returns. -/
def lsSeries (buckets : List (List ℚ × List ℚ)) : List ℚ :=
  buckets.map (fun pr => longShortReturn pr.1 pr.2)

/-- Step 5 of the backtest: the equity curve, the cumulative product of
`(1 + long-short return)`, rebased to 1.0 at the series start. -/
def equity (rs : List ℚ) (t : ℕ) : ℚ := ((rs.take t).map (fun x => 1 + x)).prod

/-- The running maximum of the equity curve up to time `t`. -/
def runningMax (rs : List ℚ) : ℕ → ℚ
  | 0 => equity rs 0
  | t + 1 => max (runningMax rs t) (equity rs (t + 1))

/-- Step 5 of the backtest: drawdown at time `t`,
`equity[t] / running_max(equity[0..t]) - 1`. -/
def drawdown (rs : List ℚ) (t : ℕ) : ℚ := equity rs t / runningMax rs t - 1

/-! ## IC statistics and the multi-factor combiner (modelled from the spec,
§4.5/§4.6) -/

/-- The rolling information-coefficient series (documented default window of
20 periods): rolling correlation between factor and forward return. -/
def icSeries (rf : RealFns) (factor fwd : Series) : Series :=
  ts_corr rf factor fwd 20

/-- `ic_mean`: mean of the defined entries of the IC series (0 when none). -/
def icMeanOf (ic : Series) : ℚ := listMean (definedVals ic)

/-- The `ic_meaningful` validity check applied to an IC series. -/
def icMeaningfulOf (ic : Series) : Bool := decide (|icMeanOf ic| > 1 / 100)

/-- The per-factor step of the combiner: evaluate each expression
independently, standardize it (mean 0, std 1, ignoring undefined entries)
and multiply by its weight, undefined entries contributing zero. -/
def combineParts (rf : RealFns) (p : Panel) :
    List (Expr × ℚ) → Except String (List (List ℚ))
  | [] => .ok []
  | ew :: rest => do
      let s ← evalExpr rf p ew.1
      let tail ← combineParts rf p rest
      .ok (((standardize rf s).map (fun o => ew.2 * o.getD 0)) :: tail)

/-- The multi-factor combiner: the weighted standardized factor
contributions summed elementwise across factors. -/
def combineFactors (rf : RealFns) (factors : List (Expr × ℚ)) (p : Panel) :
    Except String (List ℚ) := do
  let parts ← combineParts rf p factors
  .ok ((List.range p.length).map (fun i => (parts.map (fun l => l.getD i 0)).sum))

/-- The combiner pipeline: combined series, plus its IC mean and the
`ic_meaningful` verdict against the forward returns. -/
def combinePipeline (rf : RealFns) (factors : List (Expr × ℚ)) (p : Panel)
    (periods : ℕ) : Except String (List ℚ × ℚ × Bool) := do
  let c ← combineFactors rf factors p
  let ic := icSeries rf (c.map some) (forwardReturns p periods)
  .ok (c, icMeanOf ic, icMeaningfulOf ic)

/-! ## The evaluation request handler (modelled from the spec, §5/§6) -/

/-- The report store: the only cross-request shared state of the backend. -/
abbrev ReportStore := List (String × JVal)

/-- An evaluation request (the panel is resolved separately by the loader). -/
structure EvaluateRequest where
  expression : Expr
  periods : ℕ
  quantile : ℕ

/-- The result object of an evaluation: factor series, IC mean and the
`ic_meaningful` verdict (a representative slice of the metrics object). -/
def runEvaluate (rf : RealFns) (p : Panel) (req : EvaluateRequest) :
    Except String (Series × ℚ × Bool) := do
  let s ← evalExpr rf p req.expression
  let ic := icSeries rf s (forwardReturns p req.periods)
  .ok (s, icMeanOf ic, icMeaningfulOf ic)

/-- The evaluate endpoint handler with the shared report store threaded
through explicitly: it computes the response and leaves the store alone. -/
def handleEvaluate (store : ReportStore) (rf : RealFns) (p : Panel)
    (req : EvaluateRequest) : Except String (Series × ℚ × Bool) × ReportStore :=
  (runEvaluate rf p req, store)

end OpenAlpha

namespace OpenAlpha

/-! ## Theorems for the API-layer and frontend claims -/

/-- C1: `is_valid_factor` is true exactly when all five validity checks
(|t| > 1.96, |ic_mean| > 0.01, Sharpe > 0, win rate > 0.48, n > 100) pass,
and `validity_reason` names exactly the failing checks. -/
theorem valid_factor_iff_all_checks (s : ValidityStats) :
    (is_valid_factor s = true ↔
      (ic_significance s = true ∧ ic_meaningful s = true ∧ positive_sharpe s = true ∧
       above_random s = true ∧ sufficient_data s = true)) ∧
    ∀ nb ∈ validity_checks s, (nb.1 ∈ validity_reason s ↔ nb.2 = false) := by
  have key : ∀ b1 b2 b3 b4 b5 : Bool,
      ((([("ic_significance", b1), ("ic_meaningful", b2), ("positive_sharpe", b3),
          ("above_random", b4), ("sufficient_data", b5)].all (fun p => p.2)) = true) ↔
        (b1 = true ∧ b2 = true ∧ b3 = true ∧ b4 = true ∧ b5 = true)) ∧
      ∀ nb ∈ [("ic_significance", b1), ("ic_meaningful", b2), ("positive_sharpe", b3),
          ("above_random", b4), ("sufficient_data", b5)],
        (nb.1 ∈ (([("ic_significance", b1), ("ic_meaningful", b2), ("positive_sharpe", b3),
            ("above_random", b4), ("sufficient_data", b5)].filter
              (fun p => !p.2)).map Prod.fst) ↔ nb.2 = false) := by decide
  exact key (ic_significance s) (ic_meaningful s) (positive_sharpe s)
    (above_random s) (sufficient_data s)

/-- Witness for C1 at a concrete statistics record (all checks passing). -/
theorem valid_factor_iff_all_checks_witness :
    let s : ValidityStats := ⟨2, 2 / 100, 1, 55 / 100, 200⟩
    (is_valid_factor s = true ↔
      (ic_significance s = true ∧ ic_meaningful s = true ∧ positive_sharpe s = true ∧
       above_random s = true ∧ sufficient_data s = true)) ∧
    ∀ nb ∈ validity_checks s, (nb.1 ∈ validity_reason s ↔ nb.2 = false) :=
  valid_factor_iff_all_checks ⟨2, 2 / 100, 1, 55 / 100, 200⟩

/-- C9 counterexample: on the response body `{reports: null}` the `reports`
field is present, yet `reportsApi.list` returns `[]`, not that field. -/
theorem reportsList_null_counterexample :
    lookupField "reports" [("reports", JVal.null)] = some JVal.null ∧
    reportsList [("reports", JVal.null)] = JVal.arr [] ∧
    JVal.arr [] ≠ JVal.null := by
  refine ⟨rfl, rfl, ?_⟩
  intro h
  cases h

/-- C9 (amended): `reportsApi.list` returns the `reports` field when it is
present and truthy, and `[]` when it is absent (or falsy); hence whenever
every present `reports` field is an array, the result is an array and never
null. -/
theorem reportsList_spec (body : List (String × JVal))
    (h : ∀ v, lookupField "reports" body = some v → ∃ xs, v = JVal.arr xs) :
    (∃ xs, reportsList body = JVal.arr xs) ∧ reportsList body ≠ JVal.null ∧
    (∀ v, lookupField "reports" body = some v → jsTruthy v = true →
      reportsList body = v) ∧
    (lookupField "reports" body = none → reportsList body = JVal.arr []) := by
  rcases hl : lookupField "reports" body with _ | v
  · refine ⟨⟨[], ?_⟩, ?_, ?_, ?_⟩ <;> simp [reportsList, hl]
  · obtain ⟨xs, rfl⟩ := h v hl
    refine ⟨⟨xs, ?_⟩, ?_, ?_, ?_⟩ <;> simp [reportsList, hl, jsTruthy]

/-- Witness for C9 at the concrete body `{reports: [1]}`. -/
theorem reportsList_spec_witness :
    (∃ xs, reportsList [("reports", JVal.arr [JVal.num 1])] = JVal.arr xs) ∧
    reportsList [("reports", JVal.arr [JVal.num 1])] ≠ JVal.null ∧
    (∀ v, lookupField "reports" [("reports", JVal.arr [JVal.num 1])] = some v →
      jsTruthy v = true → reportsList [("reports", JVal.arr [JVal.num 1])] = v) ∧
    (lookupField "reports" [("reports", JVal.arr [JVal.num 1])] = none →
      reportsList [("reports", JVal.arr [JVal.num 1])] = JVal.arr []) :=
  reportsList_spec [("reports", JVal.arr [JVal.num 1])]
    (fun v hv => by
      refine ⟨[JVal.num 1], ?_⟩
      cases hv
      rfl)

/-- C8 counterexample: the `factorApi.combine` request body (a cited source
of the claim) carries `periods` and `quantile` fields besides `symbol` and
`factors`, so it is not of the shape `{symbol, factors}` with no other
fields. -/
theorem combineRequestBody_extra_fields :
    (combineRequestBody (JVal.arr []) "BTC" 1 5).map Prod.fst =
      ["factors", "symbol", "periods", "quantile"] ∧
    "periods" ∉ (["symbol", "factors"] : List String) := by
  exact ⟨rfl, by decide⟩

/-- C8 (amended): the combine requests actually issued by the app — built by
`FactorStrategy.runStrategy` — consist of exactly a `symbol` field and a
`factors` field whose entries are objects with exactly an `expression`
string and a numeric `weight` (the `parseFloat` of the weight input). -/
theorem runStrategyPayload_shape (pf : String → ℚ) (symbol : String)
    (fs : List SelectedFactor) :
    ((runStrategyPayload pf symbol fs).map Prod.fst = ["symbol", "factors"]) ∧
    ∃ entries : List JVal,
      lookupField "factors" (runStrategyPayload pf symbol fs) =
        some (JVal.arr entries) ∧
      ∀ e ∈ entries, ∃ expr w,
        e = JVal.obj [("expression", JVal.str expr), ("weight", JVal.num w)] := by
  refine ⟨rfl, fs.map (fun f =>
    JVal.obj [("expression", .str f.expression), ("weight", .num (pf f.weight))]), ?_, ?_⟩
  · simp [runStrategyPayload, lookupField]
  intro e he
  rcases List.mem_map.mp he with ⟨f, _, rfl⟩
  exact ⟨f.expression, pf f.weight, rfl⟩

/-- Witness for C8 at a concrete factor list. -/
theorem runStrategyPayload_shape_witness :
    ((runStrategyPayload (fun _ => 1) "BTC"
        [⟨0, "close", "1.0"⟩]).map Prod.fst = ["symbol", "factors"]) ∧
    ∃ entries : List JVal,
      lookupField "factors" (runStrategyPayload (fun _ => 1) "BTC"
          [⟨0, "close", "1.0"⟩]) = some (JVal.arr entries) ∧
      ∀ e ∈ entries, ∃ expr w,
        e = JVal.obj [("expression", JVal.str expr), ("weight", JVal.num w)] :=
  runStrategyPayload_shape (fun _ => 1) "BTC" [⟨0, "close", "1.0"⟩]

/-- C10: the candle array handed to the chart is sorted in non-decreasing
time order (whatever order the server returned the bars in), and every
candle comes from an input bar whose time/open/high/low/close are all
non-null, converted to numbers by `toCandle`. -/
theorem formattedData_sorted_and_complete (chartData : List RawBar) :
    List.Sorted (fun a b : ChartCandle => a.time ≤ b.time)
      (formattedData chartData) ∧
    ∀ cdl ∈ formattedData chartData, ∃ d ∈ chartData,
      barComplete d = true ∧ cdl = toCandle d := by
  constructor
  · exact List.sorted_insertionSort _ _
  · intro cdl hc
    have hmem : cdl ∈ (chartData.filter barComplete).map toCandle :=
      ((List.perm_insertionSort _ _).mem_iff).mp hc
    rcases List.mem_map.mp hmem with ⟨d, hd, rfl⟩
    rcases List.mem_filter.mp hd with ⟨hdr, hcomp⟩
    exact ⟨d, hdr, hcomp, rfl⟩

/-- C5 counterexample: the evaluator (modelled per §4.3/§7) rejects the
window length 0 of `ts_delay(close, 0)` as a parameter error, so that
evaluation does not succeed. -/
theorem ts_delay_zero_window_rejected :
    evalExpr rfTriv [⟨1, 1, 1, 1, 1⟩] (.callW .ts_delay (.fieldRef .close) 0) =
      .error "window length must be a positive integer" := rfl

/-- C5 (amended): the library function `ts_delay` at window 0 is the
identity on every series (no entries become undefined), even though the
evaluator rejects 0 as a window parameter. -/
theorem ts_delay_zero (s : Series) : ts_delay s 0 = s := by
  apply List.ext_getElem?
  intro i
  by_cases h : i < s.length
  · simp [ts_delay, List.getElem?_map, List.getElem?_range, h,
      List.getD_eq_getElem?_getD, List.getElem?_eq_getElem h]
  · have hlen : (ts_delay s 0).length = s.length := by
      simp [ts_delay]
    rw [List.getElem?_eq_none (by omega), List.getElem?_eq_none (Nat.le_of_not_lt h)]

/-- Helper: the running maximum of the equity curve is at least the rebased
starting equity 1. -/
theorem one_le_runningMax (rs : List ℚ) (t : ℕ) : 1 ≤ runningMax rs t := by
  induction t with
  | zero => simp [runningMax, equity]
  | succ n ih => exact le_trans ih (le_max_left _ _)

/-- Helper: the equity curve never exceeds its running maximum. -/
theorem equity_le_runningMax (rs : List ℚ) (t : ℕ) :
    equity rs t ≤ runningMax rs t := by
  cases t with
  | zero => exact le_refl _
  | succ n => exact le_max_right _ _

/-- C3: the equity curve starts rebased at 1.0 and accumulates
multiplicatively by `(1 + long-short return)`, the long-short return being
the mean top-bucket forward return minus the mean bottom-bucket forward
return; the drawdown is `equity[t] / running_max(equity[0..t]) - 1` and is
never positive. -/
theorem equity_cumprod_drawdown (buckets : List (List ℚ × List ℚ)) (t : ℕ) :
    equity (lsSeries buckets) 0 = 1 ∧
    (∀ k, k < buckets.length →
      (lsSeries buckets).getD k 0 =
        listMean (buckets.getD k ([], [])).1 - listMean (buckets.getD k ([], [])).2) ∧
    (∀ u, u < (lsSeries buckets).length →
      equity (lsSeries buckets) (u + 1) =
        equity (lsSeries buckets) u * (1 + (lsSeries buckets).getD u 0)) ∧
    drawdown (lsSeries buckets) t =
      equity (lsSeries buckets) t / runningMax (lsSeries buckets) t - 1 ∧
    drawdown (lsSeries buckets) t ≤ 0 := by
  refine ⟨by simp [equity], ?_, ?_, rfl, ?_⟩
  · intro k hk
    simp [lsSeries, List.getD_eq_getElem?_getD, List.getElem?_map,
      List.getElem?_eq_getElem hk, longShortReturn]
  · intro u hu
    unfold equity
    rw [List.take_succ, List.map_append, List.prod_append,
      List.getElem?_eq_getElem hu]
    simp [List.getD_eq_getElem?_getD, List.getElem?_eq_getElem hu]
  · have hpos : (0 : ℚ) < runningMax (lsSeries buckets) t :=
      lt_of_lt_of_le one_pos (one_le_runningMax _ _)
    have : equity (lsSeries buckets) t / runningMax (lsSeries buckets) t ≤ 1 :=
      (div_le_one hpos).mpr (equity_le_runningMax _ _)
    simpa [drawdown, sub_nonpos] using this

/-- Witness for C3 at a concrete bucket-return list and time. -/
theorem equity_cumprod_drawdown_witness :
    equity (lsSeries [([2 / 10], [1 / 10])]) 0 = 1 ∧
    (∀ k, k < ([([2 / 10], [1 / 10])] : List (List ℚ × List ℚ)).length →
      (lsSeries [([2 / 10], [1 / 10])]).getD k 0 =
        listMean (([([2 / 10], [1 / 10])] : List (List ℚ × List ℚ)).getD k ([], [])).1 -
          listMean (([([2 / 10], [1 / 10])] : List (List ℚ × List ℚ)).getD k ([], [])).2) ∧
    (∀ u, u < (lsSeries [([2 / 10], [1 / 10])]).length →
      equity (lsSeries [([2 / 10], [1 / 10])]) (u + 1) =
        equity (lsSeries [([2 / 10], [1 / 10])]) u *
          (1 + (lsSeries [([2 / 10], [1 / 10])]).getD u 0)) ∧
    drawdown (lsSeries [([2 / 10], [1 / 10])]) 1 =
      equity (lsSeries [([2 / 10], [1 / 10])]) 1 /
        runningMax (lsSeries [([2 / 10], [1 / 10])]) 1 - 1 ∧
    drawdown (lsSeries [([2 / 10], [1 / 10])]) 1 ≤ 0 :=
  equity_cumprod_drawdown [([2 / 10], [1 / 10])] 1

/-- Helper: sums over `List.range` agree with `Finset.range` sums. -/
theorem listRangeSum (F : ℕ → ℕ) (q : ℕ) :
    ((List.range q).map F).sum = ∑ j ∈ Finset.range q, F j := by
  induction q with
  | zero => simp
  | succ n ih =>
    rw [List.range_succ, List.map_append, List.sum_append, Finset.sum_range_succ, ih]
    simp

/-- Helper: the fibers of a ℕ-valued function bounded by `q` partition a
list, so the fiber sizes sum to its length. -/
theorem sum_fiber_lengths {α : Type} (g : α → ℕ) (q : ℕ) (l : List α)
    (h : ∀ a ∈ l, g a < q) :
    ∑ j ∈ Finset.range q, (l.filter (fun a => decide (g a = j))).length =
      l.length := by
  induction l with
  | nil => simp
  | cons a t ih =>
    have ha : g a < q := h a (List.mem_cons_self a t)
    have ht : ∀ b ∈ t, g b < q := fun b hb => h b (List.mem_cons_of_mem a hb)
    have step : ∀ j ∈ Finset.range q,
        ((a :: t).filter (fun x => decide (g x = j))).length =
          (if g a = j then 1 else 0) +
            (t.filter (fun x => decide (g x = j))).length := by
      intro j _
      by_cases hj : g a = j
      · simp [List.filter_cons, hj]
        omega
      · simp [List.filter_cons, hj]
    rw [Finset.sum_congr rfl step, Finset.sum_add_distrib, ih ht]
    have hone : (∑ j ∈ Finset.range q, if g a = j then 1 else 0) = 1 := by
      rw [Finset.sum_ite_eq (Finset.range q) (g a) (fun _ => 1)]
      simp [Finset.mem_range.mpr ha]
    rw [hone, List.length_cons]
    omega

/-- Helper: the factor-sorted valid-position list has no duplicates. -/
theorem nodup_sortedValid (f r : Series) : (sortedValid f r).Nodup :=
  ((List.perm_insertionSort _ _).nodup_iff).mpr
    (List.Nodup.filter _ (List.nodup_range _))

/-- Helper: an equal-frequency bucket index is below the layer count. -/
theorem bucketOf_lt (n q k : ℕ) (hk : k < n) (hq : 0 < q) : bucketOf n q k < q := by
  have hn : 0 < n := lt_of_le_of_lt (Nat.zero_le k) hk
  unfold bucketOf
  rw [Nat.div_lt_iff_lt_mul hn, Nat.mul_comm q n]
  exact mul_lt_mul_of_pos_right hk hq

/-- C2: quantile layering is exhaustive and disjoint — every observation at
which both the factor series and the forward-return series are defined is
assigned to exactly one of the q ∈ {3, 5, 10} layers, and the layer member
counts sum to the number of valid observations. -/
theorem quantile_layers_partition (f r : Series) (q : ℕ)
    (hq : q = 3 ∨ q = 5 ∨ q = 10) :
    (∀ i ∈ validIdx f r, ∃! j, j < q ∧ i ∈ layerMembers f r q j) ∧
    ((List.range q).map (fun j => layerCount f r q j)).sum =
      (validIdx f r).length := by
  have hq0 : 0 < q := by rcases hq with h | h | h <;> omega
  have hperm : List.Perm (sortedValid f r) (validIdx f r) := List.perm_insertionSort _ _
  have hnodup : (sortedValid f r).Nodup := nodup_sortedValid f r
  constructor
  · intro i hi
    have hi' : i ∈ sortedValid f r := hperm.mem_iff.mpr hi
    obtain ⟨k, hk, hget⟩ := List.getElem_of_mem hi'
    refine ⟨bucketOf (sortedValid f r).length q k,
      ⟨bucketOf_lt _ _ _ hk hq0, ?_⟩, ?_⟩
    · refine List.mem_map.mpr ⟨(k, i), List.mem_filter.mpr ⟨?_, by simp⟩, rfl⟩
      exact List.mem_enum_iff_getElem?.mpr
        (by rw [List.getElem?_eq_getElem hk, hget])
    · rintro j' ⟨hj'q, hj'mem⟩
      obtain ⟨kv, hkvf, hkv2⟩ := List.mem_map.mp hj'mem
      obtain ⟨hkvE, hkvB⟩ := List.mem_filter.mp hkvf
      have hkvs : (sortedValid f r)[kv.1]? = some i := by
        have hx := List.mem_enum_iff_getElem?.mp hkvE
        rw [hkv2] at hx
        exact hx
      have hkk : kv.1 = k := by
        apply List.getElem?_inj (List.fst_lt_of_mem_enum hkvE) hnodup
        rw [hkvs, List.getElem?_eq_getElem hk, hget]
      have hbj : bucketOf (sortedValid f r).length q kv.1 = j' :=
        of_decide_eq_true hkvB
      rw [← hbj, hkk]
  · have hbound : ∀ kv ∈ (sortedValid f r).enum,
        bucketOf (sortedValid f r).length q kv.1 < q := by
      intro kv hkv
      exact bucketOf_lt _ _ _ (List.fst_lt_of_mem_enum hkv) hq0
    calc ((List.range q).map (fun j => layerCount f r q j)).sum
        = ∑ j ∈ Finset.range q, layerCount f r q j := listRangeSum _ _
      _ = ∑ j ∈ Finset.range q, ((sortedValid f r).enum.filter
            (fun kv => decide (bucketOf (sortedValid f r).length q kv.1 = j))).length := by
          refine Finset.sum_congr rfl (fun j _ => ?_)
          simp [layerCount, layerMembers]
      _ = (sortedValid f r).enum.length := sum_fiber_lengths _ q _ hbound
      _ = (sortedValid f r).length := List.enum_length
      _ = (validIdx f r).length := hperm.length_eq

/-- Witness for C2 on a concrete factor/forward-return pair with undefined
entries, at q = 3. -/
theorem quantile_layers_partition_witness :
    (∀ i ∈ validIdx [some 2, some 1, none, some 3]
        [some 1, some 1, some 1, none],
      ∃! j, j < 3 ∧ i ∈ layerMembers [some 2, some 1, none, some 3]
        [some 1, some 1, some 1, none] 3 j) ∧
    ((List.range 3).map (fun j => layerCount [some 2, some 1, none, some 3]
        [some 1, some 1, some 1, none] 3 j)).sum =
      (validIdx [some 2, some 1, none, some 3]
        [some 1, some 1, some 1, none]).length :=
  quantile_layers_partition [some 2, some 1, none, some 3]
    [some 1, some 1, some 1, none] 3 (Or.inl rfl)

/-- Helper: a binary cell is undefined when its left operand is. -/
theorem cellB_none_left (f : ℚ → ℚ → Option ℚ) (b : Option ℚ) :
    cellB f none b = none := by
  cases b <;> rfl

/-- Helper: a binary cell is undefined when its right operand is. -/
theorem cellB_none_right (f : ℚ → ℚ → Option ℚ) (a : Option ℚ) :
    cellB f a none = none := by
  cases a <;> rfl

/-- Helper: a `none`-preserving cell function propagates undefined entries
positionwise through an elementwise map. -/
theorem getD_map_none {g : Option ℚ → Option ℚ} (hg : g none = none)
    (s : Series) (i : ℕ) (h : s.getD i none = none) :
    (s.map g).getD i none = none := by
  rw [List.getD_eq_getElem?_getD] at h ⊢
  rw [List.getElem?_map]
  rcases hs : s[i]? with _ | v
  · rfl
  · rw [hs] at h
    simp only [Option.getD_some] at h
    subst h
    simpa using hg

/-- Helper: an elementwise binary lift is undefined wherever either operand
series is undefined. -/
theorem liftB_getD_none (f : ℚ → ℚ → Option ℚ) (x y : Series) (i : ℕ)
    (h : x.getD i none = none ∨ y.getD i none = none) :
    (liftB f x y).getD i none = none := by
  simp only [List.getD_eq_getElem?_getD] at h ⊢
  rw [liftB, List.getElem?_zipWith]
  rcases hx : x[i]? with _ | a
  · rfl
  · rcases hy : y[i]? with _ | b
    · rfl
    · rw [hx, hy] at h
      simp only [Option.getD_some] at h
      rcases h with h | h
      · subst h
        simpa using cellB_none_left f b
      · subst h
        simpa using cellB_none_right f a

/-- Helper: a trailing window containing an undefined entry is undefined. -/
theorem trailingWindow_none (s : Series) (n i j : ℕ)
    (h1 : i + 1 - n ≤ j) (h2 : j ≤ i) (hj : j < s.length)
    (hnone : s.getD j none = none) : trailingWindow s n i = none := by
  unfold trailingWindow
  by_cases hw : i + 1 < n
  · simp [hw]
  · have hn' : n ≤ i + 1 := le_of_not_lt hw
    have hidx : j - (i + 1 - n) < n := by omega
    have hjget : s[j]? = some none := by
      rw [List.getD_eq_getElem?_getD, List.getElem?_eq_getElem hj] at hnone
      rw [List.getElem?_eq_getElem hj]
      simpa using hnone
    have hwget : ((s.drop (i + 1 - n)).take n)[j - (i + 1 - n)]? = some none := by
      rw [List.getElem?_take_of_lt hidx, List.getElem?_drop]
      rw [show i + 1 - n + (j - (i + 1 - n)) = j by omega]
      exact hjget
    have hmem : (none : Option ℚ) ∈ (s.drop (i + 1 - n)).take n :=
      List.getElem?_mem hwget
    have hall : ((s.drop (i + 1 - n)).take n).all Option.isSome = false := by
      rcases h : ((s.drop (i + 1 - n)).take n).all Option.isSome with _ | _
      · rfl
      · have := (List.all_eq_true.mp h) none hmem
        simp at this
    simp [hw, hall]

/-- Helper: a rolling application is undefined where its window is. -/
theorem rollingApply_getD_none (g : List ℚ → Option ℚ) (s : Series) (n i : ℕ)
    (h : trailingWindow s n i = none) (hi : i < s.length) :
    (rollingApply g s n).getD i none = none := by
  rw [List.getD_eq_getElem?_getD, rollingApply, List.getElem?_map,
    List.getElem?_range hi]
  simp [h]

/-- Helper: binding a success applies the continuation in the `Except`
monad. -/
theorem exceptBind_ok {ε α β : Type} (a : α) (f : α → Except ε β) :
    (Except.ok a >>= f) = f a := rfl

/-- Helper: binding an error short-circuits in the `Except` monad. -/
theorem exceptBind_error {ε α β : Type} (m : ε) (f : α → Except ε β) :
    ((Except.error m : Except ε α) >>= f) = Except.error m := rfl

/-- Helper: `evalExpr` succeeds exactly when every window parameter of the
expression is positive and within the panel length; in particular success is
independent of the panel's values and of the real-function stand-ins. -/
theorem evalExpr_isOk (rf : RealFns) (p : Panel) (e : Expr) :
    (evalExpr rf p e).isOk = windowsOk p.length e := by
  induction e with
  | lit q => rfl
  | fieldRef f => rfl
  | neg e ih =>
    simp only [evalExpr, windowsOk, ← ih]
    rcases h : evalExpr rf p e with m | s <;> rfl
  | bin op l r ihl ihr =>
    simp only [evalExpr, windowsOk, ← ihl, ← ihr]
    rcases hl : evalExpr rf p l with m | s <;>
      rcases hr : evalExpr rf p r with m' | s' <;> rfl
  | call1 f e ih =>
    simp only [evalExpr, windowsOk, ← ih]
    rcases h : evalExpr rf p e with m | s <;> rfl
  | callW f e n ih =>
    simp only [evalExpr, windowsOk, ← ih]
    rcases h : evalExpr rf p e with m | s <;>
      simp only [exceptBind_ok, exceptBind_error]
    · rfl
    · by_cases h1 : n < 1
      · rw [if_pos h1, decide_eq_false (by omega : ¬ (1 ≤ n))]
        rfl
      · rw [if_neg h1, decide_eq_true (by omega : 1 ≤ n)]
        by_cases h2 : p.length < n
        · rw [if_pos h2, decide_eq_false (by omega : ¬ (n ≤ p.length))]
          rfl
        · rw [if_neg h2, decide_eq_true (by omega : n ≤ p.length)]
          rfl
  | callW2 f a b n iha ihb =>
    simp only [evalExpr, windowsOk, ← iha, ← ihb]
    rcases ha : evalExpr rf p a with m | s <;>
      rcases hb : evalExpr rf p b with m' | s' <;>
        simp only [exceptBind_ok, exceptBind_error]
    · rfl
    · rfl
    · rfl
    · by_cases h1 : n < 1
      · rw [if_pos h1, decide_eq_false (by omega : ¬ (1 ≤ n))]
        rfl
      · rw [if_neg h1, decide_eq_true (by omega : 1 ≤ n)]
        by_cases h2 : p.length < n
        · rw [if_pos h2, decide_eq_false (by omega : ¬ (n ≤ p.length))]
          rfl
        · rw [if_neg h2, decide_eq_true (by omega : n ≤ p.length)]
          rfl

/-- Helper: a rolling correlation/covariance entry is undefined when either
input window is. -/
theorem tsCorrCov_entry_none (rf : RealFns) (x y : Series) (n i : ℕ)
    (hi : i < min x.length y.length)
    (hw : trailingWindow x n i = none ∨ trailingWindow y n i = none) :
    (ts_corr rf x y n).getD i none = none ∧ (ts_cov x y n).getD i none = none := by
  constructor
  · simp only [ts_corr, List.getD_eq_getElem?_getD, List.getElem?_map,
      List.getElem?_range hi, Option.map_some', Option.getD_some]
    rcases hwx : trailingWindow x n i with _ | wx <;>
      rcases hwy : trailingWindow y n i with _ | wy
    · rfl
    · rfl
    · rfl
    · rw [hwx, hwy] at hw
      rcases hw with hw | hw <;> cases hw
  · simp only [ts_cov, List.getD_eq_getElem?_getD, List.getElem?_map,
      List.getElem?_range hi, Option.map_some', Option.getD_some]
    rcases hwx : trailingWindow x n i with _ | wx <;>
      rcases hwy : trailingWindow y n i with _ | wy
    · rfl
    · rfl
    · rfl
    · rw [hwx, hwy] at hw
      rcases hw with hw | hw <;> cases hw

/-- C4 counterexample to the literal positionwise reading: `ts_delay` is a
built-in whose output at position 1 is defined although its operand series
is undefined at position 1 (the shift reads position 0 instead). -/
theorem ts_delay_defined_at_undefined_operand :
    (([some (5 : ℚ), none] : Series).getD 1 none = none) ∧
    (ts_delay [some (5 : ℚ), none] 1).getD 1 none = some 5 := by
  exact ⟨rfl, rfl⟩

/-- C4 (amended): undefined entries propagate through the operand positions
an operation actually reads — elementwise operations positionwise, rolling
built-ins from anywhere in their trailing window, `ts_delay` from the
shifted position — and division by zero and log/sqrt of non-positive values
become undefined values; evaluation success never depends on the panel's
values, so undefined values never cause an evaluation failure. -/
theorem undefined_propagates_never_fails (rf : RealFns) :
    (∀ a : ℚ, divQ a 0 = none) ∧
    (∀ x : ℚ, x ≤ 0 → logQ rf x = none ∧ sqrtQ rf x = none) ∧
    (∀ f : ℚ → Option ℚ, cellU f none = none) ∧
    (∀ f : ℚ → ℚ → Option ℚ, ∀ b : Option ℚ,
      cellB f none b = none ∧ cellB f b none = none) ∧
    (∀ op : BinOp, ∀ x y : Series, ∀ i,
      (x.getD i none = none ∨ y.getD i none = none) →
      (liftB (applyBin rf op) x y).getD i none = none) ∧
    (∀ f1 : Fn1, ∀ s : Series, ∀ i, s.getD i none = none →
      (applyFn1 rf f1 s).getD i none = none) ∧
    (∀ s : Series, ∀ n i, n ≤ i → i < s.length → s.getD (i - n) none = none →
      (ts_delay s n).getD i none = none) ∧
    (∀ s : Series, ∀ n i j, i < s.length → i + 1 - n ≤ j → j ≤ i →
      s.getD j none = none →
      (ts_mean s n).getD i none = none ∧ (ts_std rf s n).getD i none = none ∧
      (ts_max s n).getD i none = none ∧ (ts_min s n).getD i none = none ∧
      (ts_rank s n).getD i none = none ∧ (ts_zscore rf s n).getD i none = none) ∧
    (∀ s : Series, ∀ n i, s.getD i none = none →
      (ts_returns s n).getD i none = none) ∧
    (∀ x y : Series, ∀ n i j, i + 1 - n ≤ j → j ≤ i →
      ((j < x.length ∧ x.getD j none = none) ∨
        (j < y.length ∧ y.getD j none = none)) →
      (ts_corr rf x y n).getD i none = none ∧
        (ts_cov x y n).getD i none = none) ∧
    (∀ (rf' : RealFns) (p p' : Panel) (e : Expr), p.length = p'.length →
      (evalExpr rf p e).isOk = (evalExpr rf' p' e).isOk) := by
  refine ⟨?_, ?_, ?_, ?_, ?_, ?_, ?_, ?_, ?_, ?_, ?_⟩
  · intro a
    simp [divQ]
  · intro x hx
    constructor <;> simp [logQ, sqrtQ, hx]
  · intro f
    rfl
  · intro f b
    exact ⟨cellB_none_left f b, cellB_none_right f b⟩
  · intro op x y i h
    exact liftB_getD_none _ x y i h
  · intro f1 s i h
    cases f1 <;>
      exact getD_map_none rfl s i h
  · intro s n i hn hi h
    rw [List.getD_eq_getElem?_getD, ts_delay, List.getElem?_map,
      List.getElem?_range hi]
    simp only [Option.map_some', Option.getD_some]
    rw [if_neg (by omega)]
    exact h
  · intro s n i j hi h1 h2 h
    have hj : j < s.length := lt_of_le_of_lt h2 hi
    have hw : trailingWindow s n i = none := trailingWindow_none s n i j h1 h2 hj h
    have hmean : (ts_mean s n).getD i none = none :=
      rollingApply_getD_none _ s n i hw hi
    refine ⟨hmean, rollingApply_getD_none _ s n i hw hi,
      rollingApply_getD_none _ s n i hw hi, rollingApply_getD_none _ s n i hw hi,
      rollingApply_getD_none _ s n i hw hi, ?_⟩
    exact liftB_getD_none _ _ _ i (Or.inl (liftB_getD_none _ _ _ i (Or.inr hmean)))
  · intro s n i h
    exact liftB_getD_none _ _ _ i (Or.inl h)
  · intro x y n i j h1 h2 h
    by_cases hi : i < min x.length y.length
    · refine tsCorrCov_entry_none rf x y n i hi ?_
      rcases h with ⟨hj, hx⟩ | ⟨hj, hy⟩
      · exact Or.inl (trailingWindow_none x n i j h1 h2 hj hx)
      · exact Or.inr (trailingWindow_none y n i j h1 h2 hj hy)
    · have hlen1 : (ts_corr rf x y n).length = min x.length y.length := by
        simp [ts_corr]
      have hlen2 : (ts_cov x y n).length = min x.length y.length := by
        simp [ts_cov]
      constructor
      · rw [List.getD_eq_getElem?_getD,
          List.getElem?_eq_none (by rw [hlen1]; exact Nat.le_of_not_lt hi)]
        rfl
      · rw [List.getD_eq_getElem?_getD,
          List.getElem?_eq_none (by rw [hlen2]; exact Nat.le_of_not_lt hi)]
        rfl
  · intro rf' p p' e hlen
    rw [evalExpr_isOk, evalExpr_isOk, hlen]

/-- Witness for C4, exercising the main conjuncts at concrete inputs. -/
theorem undefined_propagates_never_fails_witness :
    divQ 5 0 = none ∧
    logQ rfTriv (-1) = none ∧
    sqrtQ rfTriv 0 = none ∧
    (liftB (applyBin rfTriv .add) [some 1, none] [some 1, some 1]).getD 1 none =
      none ∧
    (ts_mean [some 1, none, some 1] 2).getD 2 none = none ∧
    (ts_delay [none, some 1] 1).getD 1 none = none ∧
    (evalExpr rfTriv [⟨1, 1, 1, 1, 1⟩]
        (.bin .div (.fieldRef .close) (.lit 0))).isOk =
      (evalExpr rfTriv [⟨2, 2, 2, 2, 2⟩]
        (.bin .div (.fieldRef .close) (.lit 0))).isOk := by
  have h := undefined_propagates_never_fails rfTriv
  exact ⟨h.1 5, (h.2.1 (-1) (by norm_num)).1, (h.2.1 0 le_rfl).2,
    h.2.2.2.2.1 .add [some 1, none] [some 1, some 1] 1 (Or.inl rfl),
    (h.2.2.2.2.2.2.2.1 [some 1, none, some 1] 2 2 1 (by decide) (by decide)
      (by decide) rfl).1,
    h.2.2.2.2.2.2.1 [none, some 1] 1 1 (by decide) (by decide) rfl,
    h.2.2.2.2.2.2.2.2.2.2 rfTriv [⟨1, 1, 1, 1, 1⟩] [⟨2, 2, 2, 2, 2⟩]
      (.bin .div (.fieldRef .close) (.lit 0)) rfl⟩

/-- Helper: `filterMap id` of a replicated defined value. -/
theorem filterMap_id_replicate_some (q : ℚ) (k : ℕ) :
    (List.replicate k (some q)).filterMap id = List.replicate k q := by
  induction k with
  | zero => rfl
  | succ n ih => simp [List.replicate_succ, ih]

/-- Helper: any window extracted from a constant defined series is a
replicated constant. -/
theorem trailingWindow_replicate (q : ℚ) (n m i : ℕ) (w : List ℚ)
    (h : trailingWindow (List.replicate n (some q)) m i = some w) :
    w = List.replicate w.length q := by
  unfold trailingWindow at h
  by_cases hm : i + 1 < m
  · rw [if_pos hm] at h
    cases h
  · rw [if_neg hm] at h
    simp only [List.drop_replicate, List.take_replicate,
      filterMap_id_replicate_some] at h
    by_cases hall : (List.replicate (min m (n - (i + 1 - m))) (some q)).all
        Option.isSome
    · rw [if_pos hall] at h
      injection h with h
      subst h
      rw [List.length_replicate]
    · rw [if_neg hall] at h
      cases h

/-- Helper: a constant list has zero sample variance. -/
theorem svar_replicate (k : ℕ) (q : ℚ) : svar (List.replicate k q) = 0 := by
  unfold svar
  by_cases hk : (List.replicate k q).length ≤ 1
  · rw [if_pos hk]
  · rw [if_neg hk]
    have hk0 : k ≠ 0 := by
      rw [List.length_replicate] at hk
      omega
    have hμ : listMean (List.replicate k q) = q := by
      unfold listMean
      rw [List.length_replicate, if_neg hk0, List.sum_replicate, nsmul_eq_mul]
      exact mul_div_cancel_left₀ q (Nat.cast_ne_zero.mpr hk0)
    rw [hμ, List.map_replicate]
    simp

/-- Helper: combining an expression with itself at weights 1 and -1 yields
the exactly-zero series. -/
theorem combineFactors_cancel (rf : RealFns) (e : Expr) (p : Panel) (s : Series)
    (h : evalExpr rf p e = .ok s) :
    combineFactors rf [(e, 1), (e, -1)] p = .ok (List.replicate p.length 0) := by
  have hparts : combineParts rf p [(e, 1), (e, -1)] =
      .ok [(standardize rf s).map (fun o => 1 * o.getD 0),
           (standardize rf s).map (fun o => -1 * o.getD 0)] := by
    simp [combineParts, h, exceptBind_ok]
  simp only [combineFactors, hparts, exceptBind_ok]
  refine congrArg Except.ok ?_
  have hpt : ∀ i ∈ List.range p.length,
      (([(standardize rf s).map (fun o => 1 * o.getD 0),
         (standardize rf s).map (fun o => -1 * o.getD 0)].map
          (fun l => l.getD i 0)).sum) = (0 : ℚ) := by
    intro i _
    simp only [List.map_cons, List.map_nil, List.sum_cons, List.sum_nil]
    by_cases hi : i < (standardize rf s).length
    · rw [List.getD_eq_getElem?_getD, List.getD_eq_getElem?_getD,
        List.getElem?_map, List.getElem?_map, List.getElem?_eq_getElem hi]
      simp only [Option.map_some', Option.getD_some]
      ring
    · have hue : (standardize rf s)[i]? = none :=
        List.getElem?_eq_none (le_of_not_lt hi)
      rw [List.getD_eq_getElem?_getD, List.getD_eq_getElem?_getD,
        List.getElem?_map, List.getElem?_map, hue]
      simp
  rw [List.map_congr_left hpt, List.map_const', List.length_range]

/-- Helper: the IC series of the all-zero factor has no defined entries
(zero window variance makes each Pearson correlation undefined). -/
theorem icSeries_const_zero (rf : RealFns) (n : ℕ) (fwd : Series) :
    definedVals (icSeries rf (List.replicate n (some (0 : ℚ))) fwd) = [] := by
  rw [definedVals, List.filterMap_eq_nil_iff]
  intro o ho
  simp only [id_eq]
  simp only [icSeries, ts_corr] at ho
  obtain ⟨i, hi, rfl⟩ := List.mem_map.mp ho
  rcases hwx : trailingWindow (List.replicate n (some (0 : ℚ))) 20 i with _ | wx <;>
    rcases hwy : trailingWindow fwd 20 i with _ | wy
  · rfl
  · rfl
  · rfl
  · have hz : svar wx = 0 := by
      rw [trailingWindow_replicate 0 n 20 i wx hwx]
      exact svar_replicate _ _
    simp [hz]

/-- C7: combining two identical expressions with weights 1.0 and -1.0
(each standardized before weighting, undefined entries contributing zero)
yields the all-zero combined series, an IC mean of 0 and
`ic_meaningful = false`. -/
theorem combine_identical_cancels (rf : RealFns) (e : Expr) (p : Panel)
    (periods : ℕ) (s : Series) (h : evalExpr rf p e = .ok s) :
    combinePipeline rf [(e, 1), (e, -1)] p periods =
      .ok (List.replicate p.length 0, 0, false) := by
  have hc := combineFactors_cancel rf e p s h
  simp only [combinePipeline, hc, exceptBind_ok]
  rw [show (List.replicate p.length (0 : ℚ)).map some =
      List.replicate p.length (some (0 : ℚ)) from List.map_replicate]
  have hd := icSeries_const_zero rf p.length (forwardReturns p periods)
  have hm : icMeanOf (icSeries rf (List.replicate p.length (some (0 : ℚ)))
      (forwardReturns p periods)) = 0 := by
    rw [icMeanOf, hd]
    rfl
  have hb : icMeaningfulOf (icSeries rf (List.replicate p.length (some (0 : ℚ)))
      (forwardReturns p periods)) = false := by
    rw [icMeaningfulOf, hm]
    norm_num
  rw [hm, hb]

/-- Witness for C7 on a concrete three-bar panel with the expression
`close`. -/
theorem combine_identical_cancels_witness :
    combinePipeline rfTriv [(.fieldRef .close, 1), (.fieldRef .close, -1)]
      [⟨1, 1, 1, 1, 1⟩, ⟨2, 2, 2, 2, 2⟩, ⟨3, 3, 3, 3, 3⟩] 1 =
      .ok (List.replicate 3 0, 0, false) :=
  combine_identical_cancels rfTriv (.fieldRef .close)
    [⟨1, 1, 1, 1, 1⟩, ⟨2, 2, 2, 2, 2⟩, ⟨3, 3, 3, 3, 3⟩] 1
    (fieldSeries .close [⟨1, 1, 1, 1, 1⟩, ⟨2, 2, 2, 2, 2⟩, ⟨3, 3, 3, 3, 3⟩]) rfl

/-- C6: the evaluation handler is pure — its response is independent of the
shared report-store state, and re-running the same request against the same
panel produces an identical result object. -/
theorem evaluate_deterministic (store₁ store₂ : ReportStore) (rf : RealFns)
    (p : Panel) (req : EvaluateRequest) :
    (handleEvaluate store₁ rf p req).1 = (handleEvaluate store₂ rf p req).1 ∧
    (handleEvaluate (handleEvaluate store₁ rf p req).2 rf p req).1 =
      (handleEvaluate store₁ rf p req).1 :=
  ⟨rfl, rfl⟩

/-- Witness for C10 on a concrete out-of-order bar list with a null field. -/
theorem formattedData_sorted_and_complete_witness :
    List.Sorted (fun a b : ChartCandle => a.time ≤ b.time)
      (formattedData
        [⟨some 2, some 1, some 1, some 1, some 1, some 1⟩,
         ⟨some 1, some 1, some 1, some 1, some 1, none⟩,
         ⟨none, some 1, some 1, some 1, some 1, some 1⟩]) ∧
    ∀ cdl ∈ formattedData
        [⟨some 2, some 1, some 1, some 1, some 1, some 1⟩,
         ⟨some 1, some 1, some 1, some 1, some 1, none⟩,
         ⟨none, some 1, some 1, some 1, some 1, some 1⟩],
      ∃ d ∈ ([⟨some 2, some 1, some 1, some 1, some 1, some 1⟩,
         ⟨some 1, some 1, some 1, some 1, some 1, none⟩,
         ⟨none, some 1, some 1, some 1, some 1, some 1⟩] : List RawBar),
        barComplete d = true ∧ cdl = toCandle d :=
  formattedData_sorted_and_complete _

end OpenAlpha
